import Mathlib

/-!
Verification of the LSTM homework module (`chapter5_time/hw_submission/q1.py`):
a multi-layer LSTM cell with layer-normalized gate pre-activations, a
per-sample/batched state codec, and a variable-length trajectory packer.

Tensors are shallowly embedded as nested lists over `ℚ`:
a vector is `List ℚ`, a matrix (2-D tensor) is `List (List ℚ)`, and a 3-D
tensor is `List (List (List ℚ))`.  The external squashing functions
(`torch.sigmoid`, `torch.tanh`) and the normalization sub-units
(`ding.torch_utils.build_normalization`) are opaque collaborators, so the
development quantifies over them as arbitrary functions.
-/

set_option autoImplicit false

/-- Element-wise vector addition (`torch` `+` on equal-length 1-D tensors). -/
def addVec (v w : List ℚ) : List ℚ := List.zipWith (· + ·) v w

/-- Element-wise vector product (`torch` `*` on equal-length 1-D tensors). -/
def mulVec (v w : List ℚ) : List ℚ := List.zipWith (· * ·) v w

/-- Dot product of two vectors. -/
def dotVec (v w : List ℚ) : ℚ := (List.zipWith (· * ·) v w).sum

/-- Column `j` of a matrix. -/
def column (w : List (List ℚ)) (j : ℕ) : List ℚ := w.map (fun row => row.getD j 0)

/-- Row vector times matrix: entry `j` is `Σ_k x_k * W[k][j]`.  The number of
columns is read off the first row (the matrices of `q1.py` are rectangular). -/
def vecMat (x : List ℚ) (w : List (List ℚ)) : List ℚ :=
  (List.range (w.headD []).length).map (fun j => dotVec x (column w j))

/-- Matrix product, rows of `a` against `b` (`torch.matmul` on 2-D tensors). -/
def matMul (a b : List (List ℚ)) : List (List ℚ) :=
  a.map (fun row => vecMat row b)

/-- Element-wise matrix addition (`torch` `+` on equal-shape 2-D tensors). -/
def matAdd (a b : List (List ℚ)) : List (List ℚ) := List.zipWith addVec a b

/-- Element-wise matrix product (`torch` `*` on equal-shape 2-D tensors). -/
def hadamard (a b : List (List ℚ)) : List (List ℚ) := List.zipWith mulVec a b

/-- Apply a scalar function to every entry of a matrix
(`torch.sigmoid` / `torch.tanh` on a 2-D tensor). -/
def mapMat (g : ℚ → ℚ) (a : List (List ℚ)) : List (List ℚ) := a.map (List.map g)

/-- A matrix has `b` rows, each of length `n`. -/
def matShape (b n : ℕ) (a : List (List ℚ)) : Prop :=
  a.length = b ∧ ∀ row ∈ a, row.length = n

instance (b n : ℕ) (a : List (List ℚ)) : Decidable (matShape b n a) := by
  unfold matShape; infer_instance

/-- `torch.chunk(m, k, dim=1)` on a 2-D tensor `m`: chunk width is
`⌈n/k⌉` where `n` is the size of dimension 1, and `⌈n/c⌉` chunks are
produced. -/
def chunkMat (k : ℕ) (m : List (List ℚ)) : List (List (List ℚ)) :=
  let n := (m.headD []).length
  let c := (n + k - 1) / k
  (List.range ((n + c - 1) / c)).map (fun j => m.map (fun row => (row.drop (j * c)).take c))

/-- One layer's gate pre-activation for a batch, translated from
`q1.py` lines 93–96:
`gate = norm[2l](x[s] @ wx[l]) + norm[2l+1](h @ wh[l]); gate += bias[l]`.
`normA`/`normB` act row-wise (they normalize each sample's `4H`-vector), and
the bias row is broadcast over the batch. -/
def gatePre (normA normB : List ℚ → List ℚ) (wx wh : List (List ℚ)) (bias : List ℚ)
    (xs hs : List (List ℚ)) : List (List ℚ) :=
  (matAdd ((matMul xs wx).map normA) ((matMul hs wh).map normB)).map
    (fun row => addVec row bias)

/-- The four squashed gates, translated from `q1.py` lines 97–106:
`i, f, o, z = torch.chunk(gate, 4, dim=1)` followed by
`sigmoid` on `i`, `f`, `o` and `tanh` on `z`.  The squashing functions are
the opaque parameters `σ` (logistic) and `τ` (tanh). -/
def lstmGates (σ τ : ℚ → ℚ) (normA normB : List ℚ → List ℚ) (wx wh : List (List ℚ))
    (bias : List ℚ) (xs hs : List (List ℚ)) :
    List (List ℚ) × List (List ℚ) × List (List ℚ) × List (List ℚ) :=
  let gate := gatePre normA normB wx wh bias xs hs
  let parts := chunkMat 4 gate
  (mapMat σ (parts.getD 0 []), mapMat σ (parts.getD 1 []),
   mapMat σ (parts.getD 2 []), mapMat τ (parts.getD 3 []))

/-- One LSTM state update for a batch, translated from `q1.py` lines 107–110:
`c = f * c + i * z; h = o * torch.tanh(c)`, returning `(h, c)`. -/
def cellStep (τ : ℚ → ℚ) (i f o z cPrev : List (List ℚ)) :
    List (List ℚ) × List (List ℚ) :=
  let c := matAdd (hadamard f cPrev) (hadamard i z)
  let h := hadamard o (mapMat τ c)
  (h, c)

theorem zipWith_getD_of_lt {α : Type} (g : α → α → α) (d : α) (u v : List α) (j : ℕ)
    (hu : j < u.length) (hv : j < v.length) :
    (List.zipWith g u v).getD j d = g (u.getD j d) (v.getD j d) := by
  have hz : j < (List.zipWith g u v).length := by rw [List.length_zipWith]; omega
  rw [List.getD_eq_getElem _ _ hz, List.getD_eq_getElem _ _ hu, List.getD_eq_getElem _ _ hv]
  exact List.getElem_zipWith (h := hz)

theorem map_getD_of_lt {α β : Type} (g : α → β) (l : List α) (d : β) (e : α) (j : ℕ)
    (h : j < l.length) : (l.map g).getD j d = g (l.getD j e) := by
  have hm : j < (List.map g l).length := by simpa using h
  rw [List.getD_eq_getElem _ _ hm, List.getD_eq_getElem _ _ h]
  exact List.getElem_map (h := hm)

theorem matShape_row {b n : ℕ} {a : List (List ℚ)} (h : matShape b n a) {k : ℕ}
    (hk : k < b) : (a.getD k []).length = n := by
  obtain ⟨hlen, hrow⟩ := h
  rw [List.getD_eq_getElem _ _ (by omega : k < a.length)]
  exact hrow _ (List.getElem_mem _)

theorem chunkMat_four (m : List (List ℚ)) (hsz : ℕ) (hpos : 0 < hsz)
    (hrow : ∀ row ∈ m, row.length = 4 * hsz) (hne : m ≠ []) :
    chunkMat 4 m =
      [m.map (fun r => r.take hsz),
       m.map (fun r => (r.drop hsz).take hsz),
       m.map (fun r => (r.drop (2 * hsz)).take hsz),
       m.map (fun r => (r.drop (3 * hsz)).take hsz)] := by
  obtain ⟨r, rest, rfl⟩ : ∃ r rest, m = r :: rest := by
    cases m with
    | nil => exact absurd rfl hne
    | cons r rest => exact ⟨r, rest, rfl⟩
  have hr : r.length = 4 * hsz := hrow r (List.mem_cons_self r rest)
  simp only [chunkMat, List.headD_cons, hr]
  have e1 : (4 * hsz + 4 - 1) / 4 = hsz := by omega
  have e2 : (4 * hsz + hsz - 1) / hsz = 4 :=
    Nat.div_eq_of_lt_le (by omega) (by omega)
  rw [e1, e2]
  have e3 : List.range 4 = [0, 1, 2, 3] := rfl
  rw [e3]
  simp [List.map_cons, mul_comm hsz]

/-- **C1.** For every layer, batch input `xs` and previous hidden batch `hs`,
the gate pre-activation equals `normA(x·Wx) + normB(h·Wh) + bias` row by row,
and it is split into four equal `hsz`-wide segments in the fixed order
(input-gate, forget-gate, output-gate, candidate), with the logistic squash
`σ` applied to the first three segments and the tanh squash `τ` applied to
the candidate segment. -/
theorem gate_computation_spec (σ τ : ℚ → ℚ) (normA normB : List ℚ → List ℚ)
    (wx wh : List (List ℚ)) (bias : List ℚ) (xs hs : List (List ℚ)) (hsz : ℕ)
    (hB : xs.length = hs.length) (hpos : 0 < hsz)
    (hrow : ∀ row ∈ gatePre normA normB wx wh bias xs hs, row.length = 4 * hsz) :
    (∀ b < xs.length,
        (gatePre normA normB wx wh bias xs hs).getD b [] =
          addVec (addVec (normA (vecMat (xs.getD b []) wx))
            (normB (vecMat (hs.getD b []) wh))) bias)
      ∧ lstmGates σ τ normA normB wx wh bias xs hs =
        (mapMat σ ((gatePre normA normB wx wh bias xs hs).map (fun r => r.take hsz)),
         mapMat σ ((gatePre normA normB wx wh bias xs hs).map
            (fun r => (r.drop hsz).take hsz)),
         mapMat σ ((gatePre normA normB wx wh bias xs hs).map
            (fun r => (r.drop (2 * hsz)).take hsz)),
         mapMat τ ((gatePre normA normB wx wh bias xs hs).map
            (fun r => (r.drop (3 * hsz)).take hsz))) := by
  constructor
  · intro b hb
    have hb2 : b < hs.length := hB ▸ hb
    have lP : ((matMul xs wx).map normA).length = xs.length := by simp [matMul]
    have lQ : ((matMul hs wh).map normB).length = hs.length := by simp [matMul]
    have e1 : ((matMul xs wx).map normA).getD b [] = normA (vecMat (xs.getD b []) wx) := by
      unfold matMul
      rw [map_getD_of_lt normA _ _ [] b (by simpa using hb),
        map_getD_of_lt _ _ _ [] b hb]
    have e2 : ((matMul hs wh).map normB).getD b [] = normB (vecMat (hs.getD b []) wh) := by
      unfold matMul
      rw [map_getD_of_lt normB _ _ [] b (by simpa using hb2),
        map_getD_of_lt _ _ _ [] b hb2]
    unfold gatePre matAdd
    rw [map_getD_of_lt (fun row => addVec row bias) _ _ [] b
        (by rw [List.length_zipWith, lP, lQ, hB, min_self]; exact hb2),
      zipWith_getD_of_lt addVec [] _ _ b (lP ▸ hb) (lQ ▸ hb2), e1, e2]
  · by_cases hne : gatePre normA normB wx wh bias xs hs = []
    · simp [lstmGates, chunkMat, hne, mapMat]
    · simp only [lstmGates, chunkMat_four _ hsz hpos hrow hne]
      rfl

/-- **C2.** Each step of the recurrence computes, element-wise,
`c_new = f ⊙ c_prev + i ⊙ z` and `h_new = o ⊙ τ(c_new)` where `τ` is the
tanh squash. -/
theorem cellStep_update (τ : ℚ → ℚ) (i f o z cPrev : List (List ℚ)) (bsz hsz : ℕ)
    (hi : matShape bsz hsz i) (hf : matShape bsz hsz f) (ho : matShape bsz hsz o)
    (hz : matShape bsz hsz z) (hc : matShape bsz hsz cPrev) :
    ∀ b < bsz, ∀ j < hsz,
      ((cellStep τ i f o z cPrev).2.getD b []).getD j 0 =
          (f.getD b []).getD j 0 * (cPrev.getD b []).getD j 0
            + (i.getD b []).getD j 0 * (z.getD b []).getD j 0
        ∧ ((cellStep τ i f o z cPrev).1.getD b []).getD j 0 =
          (o.getD b []).getD j 0 * τ (((cellStep τ i f o z cPrev).2.getD b []).getD j 0) := by
  intro b hb j hj
  have hbf : b < f.length := by rw [hf.1]; exact hb
  have hbc : b < cPrev.length := by rw [hc.1]; exact hb
  have hbi : b < i.length := by rw [hi.1]; exact hb
  have hbz : b < z.length := by rw [hz.1]; exact hb
  have hbo : b < o.length := by rw [ho.1]; exact hb
  have lfc : (hadamard f cPrev).length = bsz := by
    unfold hadamard; rw [List.length_zipWith, hf.1, hc.1, min_self]
  have liz : (hadamard i z).length = bsz := by
    unfold hadamard; rw [List.length_zipWith, hi.1, hz.1, min_self]
  have eC : (cellStep τ i f o z cPrev).2.getD b [] =
      addVec (mulVec (f.getD b []) (cPrev.getD b []))
        (mulVec (i.getD b []) (z.getD b [])) := by
    show (matAdd (hadamard f cPrev) (hadamard i z)).getD b [] = _
    unfold matAdd hadamard
    rw [zipWith_getD_of_lt addVec [] _ _ b (by rw [List.length_zipWith, hf.1, hc.1, min_self]; exact hb)
        (by rw [List.length_zipWith, hi.1, hz.1, min_self]; exact hb),
      zipWith_getD_of_lt mulVec [] _ _ b hbf hbc,
      zipWith_getD_of_lt mulVec [] _ _ b hbi hbz]
  have rowf : (f.getD b []).length = hsz := matShape_row hf hb
  have rowc : (cPrev.getD b []).length = hsz := matShape_row hc hb
  have rowi : (i.getD b []).length = hsz := matShape_row hi hb
  have rowz : (z.getD b []).length = hsz := matShape_row hz hb
  have rowo : (o.getD b []).length = hsz := matShape_row ho hb
  have rowC : ((cellStep τ i f o z cPrev).2.getD b []).length = hsz := by
    rw [eC]; unfold addVec mulVec
    rw [List.length_zipWith, List.length_zipWith, List.length_zipWith,
      rowf, rowc, rowi, rowz]
    simp
  have eCj : ((cellStep τ i f o z cPrev).2.getD b []).getD j 0 =
      (f.getD b []).getD j 0 * (cPrev.getD b []).getD j 0
        + (i.getD b []).getD j 0 * (z.getD b []).getD j 0 := by
    rw [eC]
    unfold addVec mulVec
    rw [zipWith_getD_of_lt _ 0 _ _ j
        (by rw [List.length_zipWith, rowf, rowc, min_self]; exact hj)
        (by rw [List.length_zipWith, rowi, rowz, min_self]; exact hj),
      zipWith_getD_of_lt _ 0 _ _ j (by rw [rowf]; exact hj) (by rw [rowc]; exact hj),
      zipWith_getD_of_lt _ 0 _ _ j (by rw [rowi]; exact hj) (by rw [rowz]; exact hj)]
  refine ⟨eCj, ?_⟩
  have lC : (cellStep τ i f o z cPrev).2.length = bsz := by
    show (matAdd (hadamard f cPrev) (hadamard i z)).length = bsz
    unfold matAdd
    rw [List.length_zipWith, lfc, liz, min_self]
  have eH : (cellStep τ i f o z cPrev).1.getD b [] =
      mulVec (o.getD b []) (((cellStep τ i f o z cPrev).2.getD b []).map τ) := by
    show (hadamard o (mapMat τ (cellStep τ i f o z cPrev).2)).getD b [] = _
    unfold hadamard mapMat
    rw [zipWith_getD_of_lt mulVec [] _ _ b hbo (by rw [List.length_map, lC]; exact hb),
      map_getD_of_lt (List.map τ) _ _ [] b (by rw [lC]; exact hb)]
  rw [eH]
  unfold mulVec
  rw [zipWith_getD_of_lt _ 0 _ _ j (by rw [rowo]; exact hj)
      (by rw [List.length_map, rowC]; exact hj),
    map_getD_of_lt τ _ _ 0 j (by rw [rowC]; exact hj)]

/-! ### SequencePacker: `pack_data` (q1.py lines 128–160) -/

/-- Python `range(0, stop, step)` for a positive `step`. -/
def rangeStep (stop step : ℕ) : List ℕ :=
  (List.range ((stop + step - 1) / step)).map (fun k => k * step)

/-- A row of `n` zeros (one feature row of `torch.zeros(traj_len - D, N)`). -/
def zeroRow (n : ℕ) : List ℚ := List.replicate n 0

/-- Trajectories and masks contributed by one sequence, translated from the
loop body of `pack_data` (q1.py lines 140–156).  `n` is the sequence's
feature width `item.shape[1]`.  Python's `item[-traj_len:]` is
`drop (length - traj_len)`; `item_mask[D:].zero_()` keeps the first `D`
ones and zeroes the tail. -/
def packItem (trajLen n : ℕ) (item : List (List ℚ)) :
    List (List (List ℚ)) × List (List ℚ) :=
  if item.length < trajLen then
    ([item ++ List.replicate (trajLen - item.length) (zeroRow n)],
     [(List.replicate trajLen (1 : ℚ)).take item.length
        ++ List.replicate (trajLen - item.length) 0])
  else
    ((rangeStep item.length trajLen).map (fun i =>
        if ((item.drop i).take trajLen).length < trajLen then
          item.drop (item.length - trajLen)
        else (item.drop i).take trajLen),
     (rangeStep item.length trajLen).map (fun _ => List.replicate trajLen (1 : ℚ)))

/-- `pack_data` up to the final `torch.stack(·, dim=1)`: all trajectories and
all masks in encounter order.  The batch axis of the stacked output tensors
has exactly the length of these lists. -/
def pack_data (trajLen n : ℕ) (data : List (List (List ℚ))) :
    List (List (List ℚ)) × List (List ℚ) :=
  ((data.map (fun item => (packItem trajLen n item).1)).flatten,
   (data.map (fun item => (packItem trajLen n item).2)).flatten)

/-- Per-sequence trajectory count by the packing rule: one trajectory when
`D < traj_len`, otherwise `⌈D / traj_len⌉`. -/
def trajCount (trajLen d : ℕ) : ℕ :=
  if d < trajLen then 1 else (d + trajLen - 1) / trajLen

theorem ceilDiv_exact (q t : ℕ) (ht : 0 < t) : (q * t + t - 1) / t = q := by
  have h1 : q * t + t - 1 = (t - 1) + q * t := by omega
  rw [h1, Nat.add_mul_div_right _ _ ht, Nat.div_eq_of_lt (by omega)]
  omega

theorem ceilDiv_rem (d t : ℕ) (ht : 0 < t) (hnd : ¬ t ∣ d) :
    (d + t - 1) / t = d / t + 1 := by
  have hmod := Nat.div_add_mod d t
  have hcomm : t * (d / t) = (d / t) * t := Nat.mul_comm _ _
  have hr : d % t ≠ 0 := fun h => hnd (Nat.dvd_iff_mod_eq_zero.mpr h)
  have hlt : d % t < t := Nat.mod_lt _ ht
  have h1 : d + t - 1 = (d % t + t - 1) + (d / t) * t := by omega
  have h2 : (d % t + t - 1) / t = 1 := Nat.div_eq_of_lt_le (by omega) (by omega)
  rw [h1, Nat.add_mul_div_right _ _ ht, h2]
  omega

theorem rangeStep_count (d t : ℕ) : (rangeStep d t).length = (d + t - 1) / t := by
  simp [rangeStep]

/-- Windows starting at multiples of `t` below `d / t` are full. -/
theorem window_full (item : List (List ℚ)) (t k : ℕ) (hk : k < item.length / t) :
    ¬ ((item.drop (k * t)).take t).length < t := by
  rw [List.length_take, List.length_drop]
  have h1 : (k + 1) * t ≤ (item.length / t) * t :=
    Nat.mul_le_mul_right t (by omega)
  have h2 : (item.length / t) * t ≤ item.length := Nat.div_mul_le_self _ _
  have h3 : (k + 1) * t = k * t + t := Nat.succ_mul k t
  omega

/-- **C4.** For a sequence of length `D ≥ traj_len` with `D` not a multiple of
`traj_len`, `pack_data`'s per-item packing emits the `D / traj_len` full
non-overlapping windows starting at offset 0 and then, in place of the short
final window, the last `traj_len` elements of the sequence; every emitted
mask — including the final overlap trajectory's — is all ones. -/
theorem packItem_overlap (trajLen n : ℕ) (item : List (List ℚ))
    (ht : 0 < trajLen) (hge : trajLen ≤ item.length)
    (hnd : ¬ trajLen ∣ item.length) :
    (packItem trajLen n item).1 =
        (List.range (item.length / trajLen)).map
          (fun k => (item.drop (k * trajLen)).take trajLen)
          ++ [item.drop (item.length - trajLen)]
      ∧ (packItem trajLen n item).2 =
        List.replicate (item.length / trajLen + 1)
          (List.replicate trajLen (1 : ℚ)) := by
  have hnotlt : ¬ item.length < trajLen := by omega
  have hsteps : rangeStep item.length trajLen =
      (List.range (item.length / trajLen + 1)).map (fun k => k * trajLen) := by
    rw [rangeStep, ceilDiv_rem _ _ ht hnd]
  constructor
  · rw [packItem, if_neg hnotlt]
    simp only [hsteps, List.map_map, List.range_succ, List.map_append,
      List.map_cons, List.map_nil, Function.comp_def]
    congr 1
    · refine List.map_congr_left (fun k hk => ?_)
      rw [List.mem_range] at hk
      rw [if_neg (window_full item trajLen k hk)]
    · rw [if_pos]
      rw [List.length_take, List.length_drop]
      have h2 : (item.length / trajLen) * trajLen ≤ item.length :=
        Nat.div_mul_le_self _ _
      have h3 : item.length % trajLen ≠ 0 :=
        fun h => hnd (Nat.dvd_iff_mod_eq_zero.mpr h)
      have h4 : item.length % trajLen < trajLen := Nat.mod_lt _ ht
      have h5 := Nat.div_add_mod item.length trajLen
      have h6 : trajLen * (item.length / trajLen) = (item.length / trajLen) * trajLen :=
        Nat.mul_comm _ _
      omega
  · rw [packItem, if_neg hnotlt]
    simp only [hsteps, List.map_map, Function.comp_def]
    rw [List.map_const']
    simp

/-- **C5.** For a sequence of length `D < traj_len`, the per-item packing
emits exactly one trajectory — the sequence zero-padded at the tail to length
`traj_len` — whose mask is `D` ones followed by `traj_len - D` zeros. -/
theorem packItem_pad (trajLen n : ℕ) (item : List (List ℚ))
    (hlt : item.length < trajLen) :
    packItem trajLen n item =
      ([item ++ List.replicate (trajLen - item.length) (List.replicate n (0 : ℚ))],
       [List.replicate item.length (1 : ℚ)
          ++ List.replicate (trajLen - item.length) 0]) := by
  rw [packItem, if_pos hlt, zeroRow, List.take_replicate,
    Nat.min_eq_left (by omega)]

/-- Concatenating the `q` non-overlapping `t`-windows of a `q * t`-length
list reproduces the list. -/
theorem join_windows (t : ℕ) : ∀ (q : ℕ) (item : List (List ℚ)),
    item.length = q * t →
    ((List.range q).map (fun k => (item.drop (k * t)).take t)).flatten = item := by
  intro q
  induction q with
  | zero =>
    intro item hlen
    have hnil : item = [] := List.eq_nil_of_length_eq_zero (by omega)
    subst hnil
    rfl
  | succ q ih =>
    intro item hlen
    have hlen2 : (q + 1) * t = q * t + t := Nat.succ_mul q t
    have h3 : (item.drop t).length = q * t := by
      rw [List.length_drop]; omega
    have h2 : (List.range q).map (fun k => (item.drop ((k + 1) * t)).take t) =
        (List.range q).map (fun k => ((item.drop t).drop (k * t)).take t) := by
      refine List.map_congr_left (fun k _ => ?_)
      rw [List.drop_drop]
      have hkt : t + k * t = (k + 1) * t := by rw [Nat.succ_mul, Nat.add_comm]
      rw [hkt]
    rw [List.range_succ_eq_map, List.map_cons, List.flatten_cons, List.map_map]
    simp only [Function.comp_def, Nat.succ_eq_add_one]
    rw [h2, ih (item.drop t) h3, Nat.zero_mul, List.drop_zero, List.take_append_drop]

/-- **C6.** For a sequence whose length is an exact positive multiple
`q * traj_len`, the per-item packing emits exactly the `q` full
non-overlapping windows (no overlap trajectory), every mask is all ones, and
concatenating the trajectories in order reproduces the sequence. -/
theorem packItem_exact (trajLen n : ℕ) (item : List (List ℚ)) (q : ℕ)
    (ht : 0 < trajLen) (hq : 0 < q) (hlen : item.length = q * trajLen) :
    (packItem trajLen n item).1 =
        (List.range q).map (fun k => (item.drop (k * trajLen)).take trajLen)
      ∧ (packItem trajLen n item).1.length = q
      ∧ (packItem trajLen n item).2 =
        List.replicate q (List.replicate trajLen (1 : ℚ))
      ∧ (packItem trajLen n item).1.flatten = item := by
  have hnotlt : ¬ item.length < trajLen := by
    rw [hlen]
    have := Nat.succ_mul (q - 1) trajLen
    have hq1 : (q - 1 + 1) = q := by omega
    nlinarith [Nat.one_le_iff_ne_zero.mpr (Nat.pos_iff_ne_zero.mp hq)]
  have hdiv : item.length / trajLen = q := by
    rw [hlen, Nat.mul_div_cancel _ ht]
  have hsteps : rangeStep item.length trajLen =
      (List.range q).map (fun k => k * trajLen) := by
    rw [rangeStep, hlen, ceilDiv_exact _ _ ht]
  have hfst : (packItem trajLen n item).1 =
      (List.range q).map (fun k => (item.drop (k * trajLen)).take trajLen) := by
    rw [packItem, if_neg hnotlt]
    simp only [hsteps, List.map_map, Function.comp_def]
    refine List.map_congr_left (fun k hk => ?_)
    rw [List.mem_range] at hk
    rw [if_neg (window_full item trajLen k (by omega))]
  refine ⟨hfst, ?_, ?_, ?_⟩
  · rw [hfst]; simp
  · rw [packItem, if_neg hnotlt]
    simp only [hsteps, List.map_map, Function.comp_def]
    rw [List.map_const']
    simp
  · rw [hfst]
    exact join_windows trajLen q item hlen

theorem packItem_count (trajLen n : ℕ) (item : List (List ℚ)) :
    (packItem trajLen n item).1.length = trajCount trajLen item.length
      ∧ (packItem trajLen n item).2.length = trajCount trajLen item.length := by
  rw [packItem, trajCount]
  by_cases h : item.length < trajLen
  · rw [if_pos h, if_pos h]
    exact ⟨rfl, rfl⟩
  · rw [if_neg h, if_neg h]
    constructor
    · simp [rangeStep]
    · simp [rangeStep]

/-- **C7.** The batch axis of `pack_data`'s outputs (the number of stacked
trajectories and masks) equals the sum over all input sequences of the
per-sequence trajectory count — one if `D < traj_len`, else `⌈D/traj_len⌉` —
and in particular five sequences of lengths `[32, 49, 24, 78, 45]` with
`traj_len = 32` and feature width 10 yield exactly 9 trajectories. -/
theorem pack_data_batch_count :
    (∀ (trajLen n : ℕ) (data : List (List (List ℚ))),
        (pack_data trajLen n data).1.length =
            (data.map (fun item => trajCount trajLen item.length)).sum
          ∧ (pack_data trajLen n data).2.length =
            (data.map (fun item => trajCount trajLen item.length)).sum)
      ∧ (pack_data 32 10 (([32, 49, 24, 78, 45] : List ℕ).map
          (fun d => List.replicate d (List.replicate 10 (0 : ℚ))))).1.length = 9 := by
  refine ⟨fun trajLen n data => ⟨?_, ?_⟩, by decide⟩
  · rw [pack_data]
    rw [List.length_flatten, List.map_map]
    congr 1
    refine List.map_congr_left (fun item _ => ?_)
    exact (packItem_count trajLen n item).1
  · rw [pack_data]
    rw [List.length_flatten, List.map_map]
    congr 1
    refine List.map_congr_left (fun item _ => ?_)
    exact (packItem_count trajLen n item).2

/-! ### StateCodec (`_before_forward`, q1.py lines 52–65; `forward` split,
lines 117–125) -/

/-- A 3-D tensor `[num_layers, batch, hidden_size]`. -/
abbrev Tensor3 := List (List (List ℚ))

/-- A per-sample state record: a Python dict (`{'h': ..., 'c': ...}`) as an
insertion-ordered association list — `prev.values()` iterates in insertion
order. -/
abbrev StateRec := List (String × Tensor3)

/-- Python `zip(*xss)`: truncate to the shortest list.  Fueled by the first
list's length — `zip` stops as soon as any argument list is exhausted, so
the first list's length bounds the number of produced tuples. -/
def pyZipAux {α : Type} : ℕ → List (List α) → List (List α)
  | 0, _ => []
  | fuel + 1, xss =>
    match xss.mapM List.head? with
    | none => []
    | some heads => heads :: pyZipAux fuel (xss.map List.tail)

/-- Python `zip(*xss)` (`zip()` of no iterables is empty). -/
def pyZip {α : Type} (xss : List (List α)) : List (List α) :=
  match xss with
  | [] => []
  | xs :: rest => pyZipAux xs.length (xs :: rest)

/-- `torch.cat(ts, dim=1)` on 3-D tensors: concatenate layer by layer. -/
def catDim1 : List Tensor3 → Tensor3
  | [] => []
  | [t] => t
  | t :: ts => List.zipWith (· ++ ·) t (catDim1 ts)

/-- `t.shape[1]` of a 3-D tensor. -/
def dim1 (t : Tensor3) : ℕ := (t.headD []).length

/-- `torch.chunk(t, k, dim=1)` on a 3-D tensor: chunk width `⌈n/k⌉` where
`n = t.shape[1]`, producing `⌈n/c⌉` chunks. -/
def chunkDim1 (k : ℕ) (t : Tensor3) : List Tensor3 :=
  let c := (dim1 t + k - 1) / k
  (List.range ((dim1 t + c - 1) / c)).map
    (fun j => t.map (fun layer => (layer.drop (j * c)).take c))

/-- The merge branch of `_before_forward` (q1.py lines 61–63):
`state = [[v for v in prev.values()] for prev in prev_state]`,
`state = list(zip(*state))`, `[torch.cat(t, dim=1) for t in state]`. -/
def mergeState (ps : List StateRec) : List Tensor3 :=
  (pyZip (ps.map (fun r => r.map Prod.snd))).map catDim1

/-- The split at the end of `forward` (q1.py lines 120–124):
`batch_size = h.shape[1]`, chunk `h` and `c` into `batch_size` width-1
pieces along dim 1, zip them and rebuild dicts with keys `'h'`, `'c'`. -/
def splitState (hT cT : Tensor3) : List StateRec :=
  ((chunkDim1 (dim1 hT) hT).zip (chunkDim1 (dim1 hT) cT)).map
    (fun p => [("h", p.1), ("c", p.2)])

/-- `torch.zeros(l, b, h)`. -/
def zeros3 (l b h : ℕ) : Tensor3 :=
  List.replicate l (List.replicate b (List.replicate h (0 : ℚ)))

/-- `_before_forward` (q1.py lines 52–65): `None` becomes a zero-filled
state pair; a per-sample list is length-checked (`assert len(prev_state) ==
batch_size`, the spec's `StateShapeMismatch`) and merged. -/
def beforeForward (numLayers hiddenSize batchSize : ℕ)
    (prevState : Option (List StateRec)) : Except String (List Tensor3) :=
  match prevState with
  | none => Except.ok [zeros3 numLayers batchSize hiddenSize,
      zeros3 numLayers batchSize hiddenSize]
  | some ps =>
    if ps.length = batchSize then Except.ok (mergeState ps)
    else Except.error "StateShapeMismatch"

theorem mapM_head_pairs {α : Type} : ∀ (l : List (α × α)),
    (l.map (fun p => [p.1, p.2])).mapM List.head? = some (l.map Prod.fst)
  | [] => rfl
  | p :: ps => by
    simp only [List.map_cons, List.mapM_cons, List.head?_cons,
      mapM_head_pairs ps]
    rfl

theorem mapM_head_seconds {α : Type} : ∀ (l : List (α × α)),
    (l.map (fun p => [p.2])).mapM List.head? = some (l.map Prod.snd)
  | [] => rfl
  | p :: ps => by
    simp only [List.map_cons, List.mapM_cons, List.head?_cons,
      mapM_head_seconds ps]
    rfl

theorem pyZip_pairs {α : Type} (l : List (α × α)) (hne : l ≠ []) :
    pyZip (l.map (fun p => [p.1, p.2])) = [l.map Prod.fst, l.map Prod.snd] := by
  obtain ⟨x, xs, rfl⟩ : ∃ x xs, l = x :: xs := by
    cases l with
    | nil => exact absurd rfl hne
    | cons x xs => exact ⟨x, xs, rfl⟩
  show pyZipAux 2 (((x :: xs)).map (fun p => [p.1, p.2])) = _
  have e2 : (((x :: xs).map (fun p => [p.1, p.2])).map List.tail) =
      (x :: xs).map (fun p => [p.2]) := by
    simp [List.map_map, Function.comp_def]
  have e3 : (((x :: xs).map (fun p => [p.2])).map List.tail) =
      (x :: xs).map (fun _ => ([] : List α)) := by
    simp [List.map_map, Function.comp_def]
  rw [pyZipAux, mapM_head_pairs (x :: xs)]
  rw [e2, pyZipAux, mapM_head_seconds (x :: xs)]
  rfl

theorem singleton_of_length_one {α : Type} (l : List α) (d : α) (h : l.length = 1) :
    l = [l.getD 0 d] := by
  cases l with
  | nil => simp at h
  | cons a t =>
    cases t with
    | nil => rfl
    | cons b u =>
      rw [List.length_cons, List.length_cons] at h
      omega

theorem drop_take_one {α : Type} (l : List α) (d : α) (j : ℕ) (h : j < l.length) :
    (l.drop j).take 1 = [l.getD j d] := by
  rw [List.drop_eq_getElem_cons h, List.getD_eq_getElem _ _ h]
  rfl

/-- Concatenating width-1 tensors along dim 1: layer `l` of the result lists
every sample's single row at layer `l`. -/
theorem catDim1_singletons (L : ℕ) : ∀ (ts : List Tensor3), ts ≠ [] →
    (∀ t ∈ ts, t.length = L ∧ ∀ layer ∈ t, layer.length = 1) →
    catDim1 ts =
      (List.range L).map (fun l => ts.map (fun t => (t.getD l []).getD 0 [])) := by
  intro ts
  induction ts with
  | nil => intro h; exact absurd rfl h
  | cons t ts ih =>
    intro _ hshape
    obtain ⟨hlen, hlayer⟩ := hshape t (List.mem_cons_self _ _)
    by_cases hts : ts = []
    · subst hts
      show t = _
      refine List.ext_getElem (by simp [hlen]) ?_
      intro l h1 h2
      rw [List.getElem_map, List.getElem_range, List.map_cons, List.map_nil,
        List.getD_eq_getElem _ _ h1]
      exact singleton_of_length_one _ [] (hlayer _ (List.getElem_mem _))
    · have hcat : catDim1 (t :: ts) = List.zipWith (· ++ ·) t (catDim1 ts) := by
        cases ts with
        | nil => exact absurd rfl hts
        | cons a b => rfl
      rw [hcat, ih hts (fun x hx => hshape x (List.mem_cons_of_mem _ hx))]
      refine List.ext_getElem ?_ ?_
      · rw [List.length_zipWith, hlen]
        simp
      · intro l h1 h2
        have hlt : l < t.length := by
          rw [List.length_zipWith] at h1
          omega
        rw [List.getElem_zipWith, List.getElem_map, List.getElem_map,
          List.getElem_range, List.map_cons]
        have h5 : t[l] = [(t.getD l []).getD 0 []] := by
          rw [List.getD_eq_getElem _ _ hlt]
          exact singleton_of_length_one _ [] (hlayer _ (List.getElem_mem _))
        rw [h5, List.singleton_append]

/-- `torch.chunk(t, B, dim=1)` on a tensor whose dim-1 size is exactly `B`
produces the `B` width-1 slices. -/
theorem chunkDim1_width_one (t : Tensor3) (B : ℕ) (hB : 0 < B) (hd : dim1 t = B)
    (hlayers : ∀ layer ∈ t, layer.length = B) :
    chunkDim1 B t =
      (List.range B).map (fun j => t.map (fun layer => [layer.getD j []])) := by
  simp only [chunkDim1, hd]
  have hc : (B + B - 1) / B = 1 := Nat.div_eq_of_lt_le (by omega) (by omega)
  rw [hc]
  have hcount : (B + 1 - 1) / 1 = B := by omega
  rw [hcount]
  refine List.map_congr_left (fun j hj => ?_)
  rw [List.mem_range] at hj
  refine List.map_congr_left (fun layer hmem => ?_)
  rw [Nat.mul_one]
  exact drop_take_one layer [] j (by rw [hlayers layer hmem]; exact hj)

theorem dim1_range_map (L : ℕ) (g : ℕ → List (List ℚ)) (hL : 0 < L) :
    dim1 ((List.range L).map g) = (g 0).length := by
  obtain ⟨m, rfl⟩ : ∃ m, L = m + 1 := ⟨L - 1, by omega⟩
  rw [List.range_succ_eq_map, List.map_cons]
  rfl

theorem tensor_eq_range_map (L : ℕ) (t : Tensor3) (hlen : t.length = L)
    (hlayer : ∀ layer ∈ t, layer.length = 1) :
    (List.range L).map (fun l => [(t.getD l []).getD 0 []]) = t := by
  refine List.ext_getElem (by simp [hlen]) ?_
  intro l h1 h2
  rw [List.getElem_map, List.getElem_range, List.getD_eq_getElem _ _ h2]
  exact (singleton_of_length_one _ [] (hlayer _ (List.getElem_mem _))).symm

/-- **C3.** For every well-formed PerSampleState of batch size ≥ 1 (each
record `{'h': h, 'c': c}` with `h`, `c` shaped `[num_layers, 1, hidden]`),
the split performed at the end of `forward` is the exact inverse of the
non-sentinel merge branch of `_before_forward`: `split(merge(S)) = S`. -/
theorem split_merge_id (L : ℕ) (samples : List (Tensor3 × Tensor3))
    (hL : 0 < L) (hne : samples ≠ [])
    (hshape : ∀ p ∈ samples,
      (p.1.length = L ∧ ∀ layer ∈ p.1, layer.length = 1)
        ∧ (p.2.length = L ∧ ∀ layer ∈ p.2, layer.length = 1)) :
    splitState
        ((mergeState (samples.map (fun p => [("h", p.1), ("c", p.2)]))).getD 0 [])
        ((mergeState (samples.map (fun p => [("h", p.1), ("c", p.2)]))).getD 1 []) =
      samples.map (fun p => [("h", p.1), ("c", p.2)]) := by
  have hmergefull : mergeState (samples.map (fun p => [("h", p.1), ("c", p.2)])) =
      [catDim1 (samples.map Prod.fst), catDim1 (samples.map Prod.snd)] := by
    unfold mergeState
    have hmm : (samples.map (fun p => [("h", p.1), ("c", p.2)])).map
        (fun r => r.map Prod.snd) = samples.map (fun p => [p.1, p.2]) := by
      rw [List.map_map]
      rfl
    rw [hmm, pyZip_pairs samples hne]
    rfl
  have hH := catDim1_singletons L (samples.map Prod.fst)
    (by simpa using hne)
    (fun t ht => by
      obtain ⟨p, hp, rfl⟩ := List.mem_map.mp ht
      exact (hshape p hp).1)
  have hC := catDim1_singletons L (samples.map Prod.snd)
    (by simpa using hne)
    (fun t ht => by
      obtain ⟨p, hp, rfl⟩ := List.mem_map.mp ht
      exact (hshape p hp).2)
  have hBpos : 0 < samples.length := List.length_pos.mpr hne
  have hdimH : dim1 (catDim1 (samples.map Prod.fst)) = samples.length := by
    rw [hH, dim1_range_map L _ hL]
    simp
  have hdimC : dim1 (catDim1 (samples.map Prod.snd)) = samples.length := by
    rw [hC, dim1_range_map L _ hL]
    simp
  have hlayersH : ∀ layer ∈ catDim1 (samples.map Prod.fst),
      layer.length = samples.length := by
    rw [hH]
    intro layer hmem
    obtain ⟨l, _, rfl⟩ := List.mem_map.mp hmem
    simp
  have hlayersC : ∀ layer ∈ catDim1 (samples.map Prod.snd),
      layer.length = samples.length := by
    rw [hC]
    intro layer hmem
    obtain ⟨l, _, rfl⟩ := List.mem_map.mp hmem
    simp
  have hchunk : ∀ (proj : Tensor3 × Tensor3 → Tensor3),
      (∀ p ∈ samples, (proj p).length = L ∧ ∀ layer ∈ proj p, layer.length = 1) →
      catDim1 (samples.map proj) =
        (List.range L).map
          (fun l => (samples.map proj).map (fun t => (t.getD l []).getD 0 [])) →
      (∀ layer ∈ catDim1 (samples.map proj), layer.length = samples.length) →
      dim1 (catDim1 (samples.map proj)) = samples.length →
      chunkDim1 samples.length (catDim1 (samples.map proj)) = samples.map proj := by
    intro proj hsh hcatEq hlay hthisdim
    rw [chunkDim1_width_one _ _ hBpos hthisdim hlay]
    refine List.ext_getElem (by simp) ?_
    intro j hj1 hj2
    have hjs : j < samples.length := by simpa using hj1
    rw [List.getElem_map, List.getElem_range, List.getElem_map]
    rw [hcatEq, List.map_map]
    have hinner : ((fun layer => [layer.getD j []]) ∘
        (fun l => (samples.map proj).map (fun t => (t.getD l []).getD 0 []))) =
        fun l => [((samples.map proj).map
          (fun t => (t.getD l []).getD 0 [])).getD j []] := rfl
    rw [hinner]
    have hget : ∀ l : ℕ, ((samples.map proj).map
        (fun t => (t.getD l []).getD 0 [])).getD j [] =
        ((proj (samples.getD j ([], []))).getD l []).getD 0 [] := by
      intro l
      rw [map_getD_of_lt _ _ _ [] j (by simpa using hjs),
        map_getD_of_lt _ _ _ ([], []) j hjs]
    have hrw : (fun l => [((samples.map proj).map
        (fun t => (t.getD l []).getD 0 [])).getD j []]) =
        fun l => [((proj (samples.getD j ([], []))).getD l []).getD 0 []] := by
      funext l
      rw [hget l]
    rw [hrw]
    have hmemj : samples.getD j ([], []) ∈ samples := by
      rw [List.getD_eq_getElem _ _ hjs]
      exact List.getElem_mem _
    have hjshape := hsh _ hmemj
    rw [tensor_eq_range_map L _ hjshape.1 hjshape.2]
    rw [List.getD_eq_getElem _ _ hjs]
  have hchunkH := hchunk Prod.fst (fun p hp => (hshape p hp).1) hH hlayersH hdimH
  have hchunkC := hchunk Prod.snd (fun p hp => (hshape p hp).2) hC hlayersC hdimC
  rw [hmergefull]
  show splitState (catDim1 (samples.map Prod.fst)) (catDim1 (samples.map Prod.snd)) = _
  unfold splitState
  rw [hdimH, hchunkH, hchunkC, List.zip_map', List.map_map]
  rfl

/-- **C9.** A step call whose previous state is a non-sentinel PerSampleState
of the wrong length fails immediately (the `assert len(prev_state) ==
batch_size` of `_before_forward`, the spec's `StateShapeMismatch`). -/
theorem beforeForward_mismatch (numLayers hiddenSize batchSize : ℕ)
    (ps : List StateRec) (h : ps.length ≠ batchSize) :
    beforeForward numLayers hiddenSize batchSize (some ps) =
      Except.error "StateShapeMismatch" := by
  simp only [beforeForward]
  rw [if_neg h]

theorem beforeForward_mismatch_witness :
    beforeForward 2 4 3 (some []) = Except.error "StateShapeMismatch" :=
  beforeForward_mismatch 2 4 3 [] (by decide)

/-- **C10.** The merge step reads each record's tensors by dict value
insertion order, never by the key names: renaming all keys leaves the merge
unchanged (so a record inserted `'c'` first has its tensors silently
exchanged, not rejected), and the records produced by split always carry the
keys `'h'`, `'c'` in that insertion order. -/
theorem merge_by_insertion_order :
    (∀ (ps : List StateRec) (g : String → String),
        mergeState (ps.map (fun r => r.map (fun p => (g p.1, p.2)))) =
          mergeState ps)
      ∧ (∀ a b : Tensor3,
          mergeState [[("c", a), ("h", b)]] = mergeState [[("h", a), ("c", b)]])
      ∧ (∀ hT cT : Tensor3, ∀ r ∈ splitState hT cT, r.map Prod.fst = ["h", "c"]) := by
  have key : ∀ (ps : List StateRec) (g : String → String),
      mergeState (ps.map (fun r => r.map (fun p => (g p.1, p.2)))) =
        mergeState ps := by
    intro ps g
    unfold mergeState
    have h1 : (ps.map (fun r => r.map (fun p => (g p.1, p.2)))).map
        (fun r => r.map Prod.snd) = ps.map (fun r => r.map Prod.snd) := by
      rw [List.map_map]
      refine List.map_congr_left (fun r _ => ?_)
      show (r.map (fun p => (g p.1, p.2))).map Prod.snd = _
      rw [List.map_map]
      rfl
    rw [h1]
  refine ⟨key, ?_, ?_⟩
  · intro a b
    have h2 := key [[("h", a), ("c", b)]] (fun s => if s = "h" then "c" else "h")
    simpa using h2
  · intro hT cT r hr
    unfold splitState at hr
    rw [List.mem_map] at hr
    obtain ⟨p, _, rfl⟩ := hr
    rfl

theorem merge_by_insertion_order_witness :
    mergeState [[("c", [[[(1 : ℚ)]]]), ("h", [[[(2 : ℚ)]]])]]
        = mergeState [[("h", [[[(1 : ℚ)]]]), ("c", [[[(2 : ℚ)]]])]]
      ∧ ([("h", [[[(1 : ℚ)]]]), ("c", [[[(2 : ℚ)]]])] : StateRec).map Prod.fst
        = ["h", "c"] :=
  ⟨merge_by_insertion_order.2.1 [[[(1 : ℚ)]]] [[[(2 : ℚ)]]],
   merge_by_insertion_order.2.2 [[[(1 : ℚ)]]] [[[(2 : ℚ)]]]
     [("h", [[[(1 : ℚ)]]]), ("c", [[[(2 : ℚ)]]])] (by decide)⟩

/-! ### Construction (`LSTM.__init__`, q1.py lines 21–49, and `_init`,
lines 67–74) -/

/-- Identifiers accepted by the external
`ding.torch_utils.build_normalization` factory when called without a `dim`
argument (modelled from the library: its key table holds `BN1`, `BN2`,
`LN`, `IN1`, `IN2`, `SyncBN`; any other key raises). -/
def recognizedNormTypes : List String := ["BN1", "BN2", "LN", "IN1", "IN2", "SyncBN"]

/-- Construction-time outcome of `LSTM.__init__` followed by `_init`.
The constructor performs no validation of its own; failures arise only from
the libraries it calls, modelled here in the order the source calls them:
1. `build_normalization(norm_type)` raises for an unrecognized identifier;
2. the `2 * num_layers` normalization modules are built on feature size
   `hidden_size * 4` — a negative size raises;
3. `wx`/`wh` are `torch.zeros` of sizes drawn from `input_size` and
   `hidden_size` (only when `num_layers ≥ 1`) — a negative size raises;
4. `bias = torch.zeros(num_layers, hidden_size * 4)` — a negative size raises;
5. `nn.Dropout(dropout)` is built only when `dropout > 0` and raises when
   the probability exceeds 1;
6. `_init` computes `gain = math.sqrt(1. / hidden_size)`, a
   `ZeroDivisionError` when `hidden_size = 0` and a math domain error when
   `hidden_size < 0`. -/
def lstmInit (inputSize hiddenSize numLayers : ℤ) (normType : String)
    (dropout : ℚ) : Except String Unit :=
  if normType ∉ recognizedNormTypes then
    Except.error "KeyError: invalid norm type"
  else if 0 < numLayers ∧ hiddenSize < 0 then
    Except.error "RuntimeError: negative dimension"
  else if 0 < numLayers ∧ (inputSize < 0 ∨ hiddenSize < 0) then
    Except.error "RuntimeError: negative dimension"
  else if numLayers < 0 ∨ hiddenSize < 0 then
    Except.error "RuntimeError: negative dimension"
  else if 0 < dropout ∧ 1 < dropout then
    Except.error "ValueError: dropout probability out of range"
  else if hiddenSize = 0 then
    Except.error "ZeroDivisionError"
  else if hiddenSize < 0 then
    Except.error "ValueError: math domain error"
  else
    Except.ok ()

/-- **C8, counterexample.** The claim "construction fails with
`InvalidConfig` when `hidden_size ≤ 0`, `num_layers < 1`,
`dropout_probability` outside `[0,1)`, or `normalization_kind` unrecognized"
is false on the code: `num_layers = 0`, `dropout = -1` and `dropout = 1`
(all covered by the claim) construct without any error. -/
theorem lstmInit_accepts_invalid :
    lstmInit 10 32 0 "LN" 0 = Except.ok ()
      ∧ lstmInit 10 32 2 "LN" (-1) = Except.ok ()
      ∧ lstmInit 10 32 2 "LN" 1 = Except.ok () := by
  refine ⟨?_, ?_, ?_⟩ <;> rfl

/-- **C8, amended.** Construction succeeds iff the normalization kind is
recognized, `hidden_size > 0`, `num_layers ≥ 0` (with `input_size ≥ 0`
whenever `num_layers ≥ 1`), and `dropout ≤ 1`.  So `hidden_size ≤ 0` and
unrecognized normalization kinds do fail at construction (with library
errors, not a dedicated `InvalidConfig`), but `num_layers = 0`,
`dropout < 0` and `dropout = 1` are all accepted. -/
theorem lstmInit_ok_iff (inputSize hiddenSize numLayers : ℤ)
    (normType : String) (dropout : ℚ) :
    lstmInit inputSize hiddenSize numLayers normType dropout = Except.ok ()
      ↔ (normType ∈ recognizedNormTypes ∧ 0 < hiddenSize ∧ 0 ≤ numLayers
          ∧ (0 < numLayers → 0 ≤ inputSize) ∧ dropout ≤ 1) := by
  unfold lstmInit
  split_ifs with h1 h2 h3 h4 h5 h6 h7
  · simp only [false_iff, reduceCtorEq]
    rintro ⟨-, hh, -, -, -⟩
    omega
  · simp only [false_iff, reduceCtorEq]
    rintro ⟨-, hh, -, hi, -⟩
    have hin := hi h3.1
    rcases h3.2 with h | h <;> omega
  · simp only [false_iff, reduceCtorEq]
    rintro ⟨-, hh, hl, -, -⟩
    omega
  · simp only [false_iff, reduceCtorEq]
    rintro ⟨-, -, -, -, hd⟩
    exact absurd hd (not_le.mpr h5.2)
  · simp only [false_iff, reduceCtorEq]
    rintro ⟨-, hh, -, -, -⟩
    omega
  · simp only [false_iff, reduceCtorEq]
    rintro ⟨-, hh, -, -, -⟩
    omega
  · simp only [true_iff]
    push_neg at h2 h3 h4 h5
    refine ⟨h1, by omega, by omega, fun hpos => ?_, ?_⟩
    · have hin := h3 hpos
      omega
    · rcases le_or_lt dropout 0 with hd | hd
      · linarith
      · exact h5 hd
  · simp only [false_iff, reduceCtorEq]
    rintro ⟨hn, -, -, -, -⟩
    exact h1 hn

theorem lstmInit_ok_iff_witness :
    lstmInit 10 32 2 "LN" 1 = Except.ok () :=
  (lstmInit_ok_iff 10 32 2 "LN" 1).mpr
    ⟨by decide, by decide, by decide, fun _ => by decide, le_refl 1⟩

theorem gate_computation_spec_witness :
    ((gatePre id id [[1, 1, 1, 1]] [[1, 1, 1, 1]] [0, 0, 0, 0]
          [[(1 : ℚ)]] [[(1 : ℚ)]]).getD 0 [] =
        addVec (addVec (id (vecMat ([[(1 : ℚ)]].getD 0 []) [[1, 1, 1, 1]]))
          (id (vecMat ([[(1 : ℚ)]].getD 0 []) [[1, 1, 1, 1]]))) [0, 0, 0, 0])
      ∧ lstmGates id id id id [[1, 1, 1, 1]] [[1, 1, 1, 1]] [0, 0, 0, 0]
          [[(1 : ℚ)]] [[(1 : ℚ)]] =
        (mapMat id ((gatePre id id [[1, 1, 1, 1]] [[1, 1, 1, 1]] [0, 0, 0, 0]
            [[(1 : ℚ)]] [[(1 : ℚ)]]).map (fun r => r.take 1)),
         mapMat id ((gatePre id id [[1, 1, 1, 1]] [[1, 1, 1, 1]] [0, 0, 0, 0]
            [[(1 : ℚ)]] [[(1 : ℚ)]]).map (fun r => (r.drop 1).take 1)),
         mapMat id ((gatePre id id [[1, 1, 1, 1]] [[1, 1, 1, 1]] [0, 0, 0, 0]
            [[(1 : ℚ)]] [[(1 : ℚ)]]).map (fun r => (r.drop (2 * 1)).take 1)),
         mapMat id ((gatePre id id [[1, 1, 1, 1]] [[1, 1, 1, 1]] [0, 0, 0, 0]
            [[(1 : ℚ)]] [[(1 : ℚ)]]).map (fun r => (r.drop (3 * 1)).take 1))) := by
  have h := gate_computation_spec id id id id [[1, 1, 1, 1]] [[1, 1, 1, 1]]
    [0, 0, 0, 0] [[(1 : ℚ)]] [[(1 : ℚ)]] 1 rfl (by decide) (by decide)
  exact ⟨h.1 0 (by decide), h.2⟩

theorem cellStep_update_witness :
    ((cellStep id [[(1 : ℚ)]] [[2]] [[3]] [[4]] [[5]]).2.getD 0 []).getD 0 0 =
        (([[(2 : ℚ)]].getD 0 []).getD 0 0) * (([[(5 : ℚ)]].getD 0 []).getD 0 0)
          + (([[(1 : ℚ)]].getD 0 []).getD 0 0) * (([[(4 : ℚ)]].getD 0 []).getD 0 0)
      ∧ ((cellStep id [[(1 : ℚ)]] [[2]] [[3]] [[4]] [[5]]).1.getD 0 []).getD 0 0 =
        (([[(3 : ℚ)]].getD 0 []).getD 0 0) *
          id (((cellStep id [[(1 : ℚ)]] [[2]] [[3]] [[4]] [[5]]).2.getD 0 []).getD 0 0) :=
  cellStep_update id [[(1 : ℚ)]] [[2]] [[3]] [[4]] [[5]] 1 1 (by decide) (by decide)
    (by decide) (by decide) (by decide) 0 (by decide) 0 (by decide)

theorem split_merge_id_witness :
    splitState
        ((mergeState ([([[[(1 : ℚ)]]], [[[(2 : ℚ)]]])].map
          (fun p => [("h", p.1), ("c", p.2)]))).getD 0 [])
        ((mergeState ([([[[(1 : ℚ)]]], [[[(2 : ℚ)]]])].map
          (fun p => [("h", p.1), ("c", p.2)]))).getD 1 []) =
      [([[[(1 : ℚ)]]], [[[(2 : ℚ)]]])].map (fun p => [("h", p.1), ("c", p.2)]) :=
  split_merge_id 1 [([[[(1 : ℚ)]]], [[[(2 : ℚ)]]])] (by decide) (by decide) (by decide)

theorem packItem_overlap_witness :
    (packItem 2 1 [[(1 : ℚ)], [2], [3]]).1 =
        (List.range (([[(1 : ℚ)], [2], [3]] : List (List ℚ)).length / 2)).map
          (fun k => (([[(1 : ℚ)], [2], [3]] : List (List ℚ)).drop (k * 2)).take 2)
          ++ [([[(1 : ℚ)], [2], [3]] : List (List ℚ)).drop
            (([[(1 : ℚ)], [2], [3]] : List (List ℚ)).length - 2)]
      ∧ (packItem 2 1 [[(1 : ℚ)], [2], [3]]).2 =
        List.replicate (([[(1 : ℚ)], [2], [3]] : List (List ℚ)).length / 2 + 1)
          (List.replicate 2 (1 : ℚ)) :=
  packItem_overlap 2 1 [[(1 : ℚ)], [2], [3]] (by decide) (by decide) (by decide)

theorem packItem_pad_witness :
    packItem 3 1 [[(1 : ℚ)]] =
      ([([[(1 : ℚ)]] : List (List ℚ))
          ++ List.replicate (3 - ([[(1 : ℚ)]] : List (List ℚ)).length)
            (List.replicate 1 (0 : ℚ))],
       [List.replicate ([[(1 : ℚ)]] : List (List ℚ)).length (1 : ℚ)
          ++ List.replicate (3 - ([[(1 : ℚ)]] : List (List ℚ)).length) 0]) :=
  packItem_pad 3 1 [[(1 : ℚ)]] (by decide)

theorem packItem_exact_witness :
    (packItem 1 1 [[(1 : ℚ)], [2]]).1 =
        (List.range 2).map
          (fun k => (([[(1 : ℚ)], [2]] : List (List ℚ)).drop (k * 1)).take 1)
      ∧ (packItem 1 1 [[(1 : ℚ)], [2]]).1.length = 2
      ∧ (packItem 1 1 [[(1 : ℚ)], [2]]).2 = List.replicate 2 (List.replicate 1 (1 : ℚ))
      ∧ (packItem 1 1 [[(1 : ℚ)], [2]]).1.flatten = [[(1 : ℚ)], [2]] :=
  packItem_exact 1 1 [[(1 : ℚ)], [2]] 2 (by decide) (by decide) (by decide)
